import Mathlib

/-!
Verification of the caching / rate-limiting subsystem of the
`fastapi-advanced-crud` repository: a shallow embedding of
`app/core/cache.py` (the fail-soft Redis wrapper `CacheManager`),
`app/core/decorators.py` (`_serialize_value`, `_generate_cache_key`,
`cache_result`) and `app/core/rate_limiter.py` (`RateLimiter.is_allowed`),
together with theorems settling the specification claims about them.

Python dynamic values are modelled by the inductive `PyVal`; the single
process-wide Redis connection is modelled by an explicit `CacheState`
threaded through the operations; `time.time()` is an explicit `now`
parameter of the rate limiter.
-/

/-- Model of the Python runtime values that reach the cache subsystem:
`None`, booleans, integers (Python `int` is unbounded, so `Int` is exact),
strings, `Enum` members (carrying the string `str(member.value)` of their
underlying scalar value — the enums of this app, `TaskPriority` and
`TaskStatus`, are `str`-valued), lists/tuples, dicts (insertion-ordered
association lists with the string keys Python's `json.dumps` requires),
session objects (any object whose class name contains `'Session'`,
e.g. SQLAlchemy `AsyncSession`; the `Nat` is an identity tag so that two
distinct session handles are distinct values), and arbitrary fallback
objects carrying their `str()` form. -/
inductive PyVal where
  | pynone
  | pybool (b : Bool)
  | pyint (n : Int)
  | pystr (s : String)
  | pyenum (v : String)
  | pylist (xs : List PyVal)
  | pydict (kvs : List (String × PyVal))
  | pysession (ident : Nat)
  | pyobj (s : String)

/-- Python `str.join`: `sep.join(parts)`. -/
def pyJoin (sep : String) : List String → String
  | [] => ""
  | [x] => x
  | x :: y :: xs => x ++ sep ++ pyJoin sep (y :: xs)

/-- Lowercase hex digit, as produced by Python's `json` module escapes. -/
def hexDigit (n : Nat) : Char :=
  if n < 10 then Char.ofNat (48 + n) else Char.ofNat (87 + n)

/-- Four lowercase hex digits (for `\uXXXX` escapes). -/
def hex4 (n : Nat) : String :=
  String.mk [hexDigit (n / 4096 % 16), hexDigit (n / 256 % 16),
             hexDigit (n / 16 % 16), hexDigit (n % 16)]

/-- Python `json.dumps` `\uXXXX` escape of a code point, with a surrogate
pair for code points above the BMP (`ensure_ascii=True`, the default). -/
def uEscape (n : Nat) : String :=
  if n ≤ 65535 then "\\u" ++ hex4 n
  else
    let m := n - 65536
    "\\u" ++ hex4 (55296 + m / 1024) ++ "\\u" ++ hex4 (56320 + m % 1024)

/-- Escape of one character inside a JSON string, following Python's
`json.dumps` with its default `ensure_ascii=True`: the two-character
escapes for quote, backslash and the common control characters, `\uXXXX`
for the remaining control characters and for everything outside printable
ASCII. -/
def jsonEscapeChar (c : Char) : String :=
  if c = '"' then "\\\""
  else if c = '\\' then "\\\\"
  else if c = '\n' then "\\n"
  else if c = '\t' then "\\t"
  else if c = '\r' then "\\r"
  else if c.toNat = 8 then "\\b"
  else if c.toNat = 12 then "\\f"
  else if c.toNat < 32 ∨ 126 < c.toNat then uEscape c.toNat
  else String.mk [c]

/-- JSON encoding of a string (quote, escape each character, quote). -/
def jsonQuote (s : String) : String :=
  "\"" ++ String.join (s.data.map jsonEscapeChar) ++ "\""

/-- Rendering of a JSON array of (already serialized) strings exactly as
`json.dumps` renders a Python list of `str`: default separator `", "`. -/
def jsonArr (elems : List String) : String :=
  "[" ++ pyJoin ", " (elems.map jsonQuote) ++ "]"

/-- Rendering of a JSON object with string keys and string values exactly
as `json.dumps` renders a `dict[str, str]`: separators `", "` and `": "`.
The caller is responsible for any key ordering (`sort_keys`). -/
def jsonObj (kvs : List (String × String)) : String :=
  "\x7b" ++ pyJoin ", " (kvs.map (fun kv => jsonQuote kv.1 ++ ": " ++ jsonQuote kv.2)) ++ "\x7d"

/-- Python `sorted` on strings (lexicographic by code point). Python's sort
is stable; `List.insertionSort` is stable, and the claims only ever sort
lists without duplicates, where stability is irrelevant. -/
def sortStrings (l : List String) : List String :=
  List.insertionSort (fun a b => a ≤ b) l

/-- Python `str()` of the values `_serialize_value` passes to `str`:
`str(True) = "True"`, `str(False) = "False"`, decimal form for `int`
(Lean's `toString` on `Int` matches Python's, including the `-` sign). -/
def pyStrBool (b : Bool) : String := if b then "True" else "False"

/-! ### Model of `_serialize_value` from `app/core/decorators.py`

Behavior of the source function:

* `None` → `"None"`;
* objects whose class name contains `'Session'` → `""` (excluded);
* `Enum` members → `str(value.value)`;
* `str`/`int`/`bool` → `str(value)`;
* lists/tuples → `json.dumps([_serialize_value(v) for v in value], sort_keys=True)`
  (for a list, `sort_keys` has no effect);
* dicts → `json.dumps({k: _serialize_value(v) ...}, sort_keys=True)`,
  i.e. entries rendered in key-sorted order;
* anything else → `str(value)`.

The Python function tests these cases in sequence with `isinstance`; the
constructors of `PyVal` are disjoint, so a direct structural match is the
same function. -/
mutual

/-- Faithful model of `_serialize_value` from `app/core/decorators.py`
(see the module-level notes right above this `mutual` block). -/
def serialize_value : PyVal → String
  | .pynone => "None"
  | .pysession _ => ""
  | .pyenum v => v
  | .pystr s => s
  | .pyint n => toString n
  | .pybool b => pyStrBool b
  | .pylist xs => jsonArr (serializeElems xs)
  | .pydict kvs =>
      jsonObj (List.insertionSort (fun a b => a.1 ≤ b.1) (serializeEntries kvs))
  | .pyobj s => s

/-- The list comprehension `[_serialize_value(v) for v in value]`. -/
def serializeElems : List PyVal → List String
  | [] => []
  | v :: vs => serialize_value v :: serializeElems vs

/-- The dict comprehension `{k: _serialize_value(v) for k, v in value.items()}`. -/
def serializeEntries : List (String × PyVal) → List (String × String)
  | [] => []
  | (k, v) :: rest => (k, serialize_value v) :: serializeEntries rest

end

/-- The guard `args and hasattr(args[0], '__class__') and
hasattr(args[0].__class__, '__mro__')` from `_generate_cache_key`.
In Python 3 every object has a `__class__` attribute and every class has
an `__mro__` attribute, so for a non-empty `args` tuple this test is true
for every possible first argument. -/
def hasClassWithMro (_ : PyVal) : Bool := true

/-- The `start_idx` computed by `_generate_cache_key`:
`1 if args and hasattr(args[0], '__class__') and hasattr(args[0].__class__, '__mro__') else 0`. -/
def startIdx : List PyVal → Nat
  | [] => 0
  | a :: _ => if hasClassWithMro a then 1 else 0

/-- Python `kwargs[key]` on the model of a `dict` as an insertion-ordered
association list (a real `dict` has no duplicate keys, so taking the first
match is exact). -/
def lookupKw (kwargs : List (String × PyVal)) (k : String) : Option PyVal :=
  (kwargs.find? (fun kv => kv.1 == k)).map (fun kv => kv.2)

/-- Faithful model of the `cache_key_data` local of `_generate_cache_key`:
`key_parts = [key_prefix, func_name]`, then one loop appending each
non-empty serialization of `args[start_idx:]`, then one loop over
`sorted(kwargs.keys())` appending each non-empty `f"{key}={serialized}"`,
finally `":".join(key_parts)`. -/
def cache_key_data (func_name keyPfx : String) (args : List PyVal)
    (kwargs : List (String × PyVal)) : String :=
  let key_parts : List String := [keyPfx, func_name]
  let key_parts := (args.drop (startIdx args)).foldl (fun acc arg =>
    let serialized := serialize_value arg
    if serialized ≠ "" then acc ++ [serialized] else acc) key_parts
  let key_parts := (sortStrings (kwargs.map Prod.fst)).foldl (fun acc k =>
    match lookupKw kwargs k with
    | some v =>
      let serialized := serialize_value v
      if serialized ≠ "" then acc ++ [k ++ "=" ++ serialized] else acc
    | none => acc) key_parts
  pyJoin ":" key_parts

/-! ### MD5 (`hashlib.md5(...).hexdigest()`)

A direct implementation of RFC 1321 over the UTF-8 bytes of the input
string, with 32-bit words represented as `Nat` reduced modulo `2^32`.
The claims never reason about the internals of the hash — every key
equality or inequality is established on the pre-hash `cache_key_data`
string and transported through `md5hex` by congruence — but the
definition keeps `generate_cache_key` faithful to
`hashlib.md5(cache_key_data.encode()).hexdigest()`. -/

/-- UTF-8 bytes of a string, as `Nat`s (what `str.encode()` hashes). -/
def utf8Bytes (s : String) : List Nat :=
  s.toUTF8.toList.map (fun b => b.toNat)

/-- Bitwise complement within 32 bits (operand already reduced mod `2^32`). -/
def natNot32 (x : Nat) : Nat := 4294967295 - x % 4294967296

/-- Left rotation of a 32-bit word. -/
def rotl32 (x n : Nat) : Nat :=
  ((x <<< n) % 4294967296) ||| ((x % 4294967296) >>> (32 - n))

/-- The 64 MD5 additive constants `K[i] = floor(2^32 * abs(sin(i+1)))`. -/
def md5K : List Nat :=
  [3614090360, 3905402710, 606105819, 3250441966, 4118548399, 1200080426,
   2821735955, 4249261313, 1770035416, 2336552879, 4294925233, 2304563134,
   1804603682, 4254626195, 2792965006, 1236535329, 4129170786, 3225465664,
   643717713, 3921069994, 3593408605, 38016083, 3634488961, 3889429448,
   568446438, 3275163606, 4107603335, 1163531501, 2850285829, 4243563512,
   1735328473, 2368359562, 4294588738, 2272392833, 1839030562, 4259657740,
   2763975236, 1272893353, 4139469664, 3200236656, 681279174, 3936430074,
   3572445317, 76029189, 3654602809, 3873151461, 530742520, 3299628645,
   4096336452, 1126891415, 2878612391, 4237533241, 1700485571, 2399980690,
   4293915773, 2240044497, 1873313359, 4264355552, 2734768916, 1309151649,
   4149444226, 3174756917, 718787259, 3951481745]

/-- The 64 MD5 per-round left-rotation amounts. -/
def md5S : List Nat :=
  [7, 12, 17, 22, 7, 12, 17, 22, 7, 12, 17, 22, 7, 12, 17, 22,
   5, 9, 14, 20, 5, 9, 14, 20, 5, 9, 14, 20, 5, 9, 14, 20,
   4, 11, 16, 23, 4, 11, 16, 23, 4, 11, 16, 23, 4, 11, 16, 23,
   6, 10, 15, 21, 6, 10, 15, 21, 6, 10, 15, 21, 6, 10, 15, 21]

/-- One MD5 round: mixes round `i` into the running `(A, B, C, D)` state,
reading message word `M g`. -/
def md5Round (M : Nat → Nat) (st : Nat × Nat × Nat × Nat) (i : Nat) :
    Nat × Nat × Nat × Nat :=
  let (A, B, C, D) := st
  let FG : Nat × Nat :=
    if i < 16 then ((B &&& C) ||| (natNot32 B &&& D), i)
    else if i < 32 then ((D &&& B) ||| (natNot32 D &&& C), (5 * i + 1) % 16)
    else if i < 48 then (B ^^^ C ^^^ D, (3 * i + 5) % 16)
    else (C ^^^ (B ||| natNot32 D), (7 * i) % 16)
  let F := (FG.1 + A + md5K.getD i 0 + M FG.2) % 4294967296
  (D, (B + rotl32 F (md5S.getD i 0)) % 4294967296, B, C)

/-- Processing of one 64-byte chunk: 16 little-endian words, 64 rounds,
then addition into the running digest state. -/
def md5ProcessChunk (h : Nat × Nat × Nat × Nat) (chunk : List Nat) :
    Nat × Nat × Nat × Nat :=
  let M : Nat → Nat := fun j =>
    chunk.getD (4 * j) 0 + 256 * chunk.getD (4 * j + 1) 0 +
    65536 * chunk.getD (4 * j + 2) 0 + 16777216 * chunk.getD (4 * j + 3) 0
  let r := (List.range 64).foldl (md5Round M) h
  ((h.1 + r.1) % 4294967296, (h.2.1 + r.2.1) % 4294967296,
   (h.2.2.1 + r.2.2.1) % 4294967296, (h.2.2.2 + r.2.2.2) % 4294967296)

/-- MD5 padding: append `0x80`, zero-pad to 56 mod 64, then the original
length in bits as 8 little-endian bytes. -/
def md5Pad (bytes : List Nat) : List Nat :=
  let len := bytes.length
  let zeros := (119 - len % 64) % 64
  bytes ++ 128 :: List.replicate zeros 0 ++
    (List.range 8).map (fun i => ((8 * len) >>> (8 * i)) % 256)

/-- Splitting into 64-byte chunks (the input length is a multiple of 64). -/
def chunks64 : Nat → List Nat → List (List Nat)
  | 0, _ => []
  | n + 1, l => l.take 64 :: chunks64 n (l.drop 64)

/-- Two lowercase hex digits of a byte. -/
def byteHex (b : Nat) : String := String.mk [hexDigit (b / 16 % 16), hexDigit (b % 16)]

/-- Lowercase hex of a 32-bit word, least-significant byte first (MD5
digest byte order). -/
def word32LEHex (w : Nat) : String :=
  byteHex (w % 256) ++ byteHex (w / 256 % 256) ++
  byteHex (w / 65536 % 256) ++ byteHex (w / 16777216 % 256)

/-- Model of `hashlib.md5(s.encode()).hexdigest()`. -/
def md5hex (s : String) : String :=
  let padded := md5Pad (utf8Bytes s)
  let r := (chunks64 (padded.length / 64) padded).foldl md5ProcessChunk
    (1732584193, 4023233417, 2562383102, 271733878)
  word32LEHex r.1 ++ word32LEHex r.2.1 ++ word32LEHex r.2.2.1 ++ word32LEHex r.2.2.2

/-- Faithful model of `_generate_cache_key` from `app/core/decorators.py`:
the MD5 hex digest of `cache_key_data`. -/
def generate_cache_key (func_name keyPfx : String) (args : List PyVal)
    (kwargs : List (String × PyVal)) : String :=
  md5hex (cache_key_data func_name keyPfx args kwargs)

/-! ### The Key-Value Store (`CacheManager`, `app/core/cache.py`)

`CacheManager` keeps a single optional Redis connection; every operation
first tests `if not self.redis_client` and returns its neutral default
when the connection is absent (disabled mode).

A value passed to `set` goes through `json.dumps(value, default=str)` and
is read back through `json.loads`. For JSON-native values
(`None`/`bool`/`int`/`str` and lists/dicts of such) this round trip is
the identity; a non-native value is replaced by its `str()` form by the
`default=str` hook (and the `str`-subclass enums of this app serialize as
their underlying string). `jsonRoundTrip` applies that normalization
once, and the model stores the normalized value — exactly what a later
`json.loads` of the stored text yields. `json.dumps` never raises here
(`default=str` accepts anything), its output is never the empty string
(so the `if value:` truthiness test in `get` passes for every stored
entry), and `json.loads` of text this subsystem itself wrote always
succeeds — so the caught-exception branches of `get`/`set` are unreachable
for a functioning backend and the model needs no failure case beyond
disabled mode. -/

mutual

/-- What `json.loads(json.dumps(v, default=str))` yields for a stored
value `v`: JSON-native constructors survive unchanged; an `Enum` member of
a `str`-subclass enum is encoded as its underlying string; any other
object is replaced by its `str()` form by the `default=str` hook. -/
def jsonRoundTrip : PyVal → PyVal
  | .pynone => .pynone
  | .pybool b => .pybool b
  | .pyint n => .pyint n
  | .pystr s => .pystr s
  | .pyenum v => .pystr v
  | .pylist xs => .pylist (roundTripElems xs)
  | .pydict kvs => .pydict (roundTripEntries kvs)
  | .pysession ident => .pystr ("<session " ++ toString ident ++ ">")
  | .pyobj s => .pystr s

/-- Round trip of each element of a stored list. -/
def roundTripElems : List PyVal → List PyVal
  | [] => []
  | v :: vs => jsonRoundTrip v :: roundTripElems vs

/-- Round trip of each entry of a stored dict (`json.dumps` without
`sort_keys` keeps insertion order, so keys keep their order here). -/
def roundTripEntries : List (String × PyVal) → List (String × PyVal)
  | [] => []
  | (k, v) :: rest => (k, jsonRoundTrip v) :: roundTripEntries rest

end

/-- One Redis entry as this subsystem sees it: the stored (deserialized)
value and the TTL in seconds that `setex` attached. -/
abbrev StoreEntries := List (String × PyVal × Nat)

/-- Redis `GET` on the backend key space. -/
def lookupKey : StoreEntries → String → Option (PyVal × Nat)
  | [], _ => none
  | (k', v, t) :: rest, k => if k' = k then some (v, t) else lookupKey rest k

/-- Redis `SETEX`: overwrite an existing key or append a fresh one. -/
def setEntry : StoreEntries → String → PyVal → Nat → StoreEntries
  | [], k, v, t => [(k, v, t)]
  | (k', v', t') :: rest, k, v, t =>
      if k' = k then (k, v, t) :: rest else (k', v', t') :: setEntry rest k v t

/-- Redis `DEL` of a single key. A real keyspace never holds a key twice,
so removing every binding of the key is the same operation on every
reachable state (and total on the model's association lists). -/
def removeKey : StoreEntries → String → StoreEntries
  | [], _ => []
  | (k', v, t) :: rest, k =>
      if k' = k then removeKey rest k else (k', v, t) :: removeKey rest k

/-- Shell-glob matching (`*`, `?`) as Redis `KEYS` applies it, on
character lists, with explicit step fuel (each recursive call shortens
the pattern or the subject, so `length + length + 1` steps suffice). -/
def globMatchFuel : Nat → List Char → List Char → Bool
  | 0, _, _ => false
  | _ + 1, [], [] => true
  | fuel + 1, '*' :: ps, s =>
      globMatchFuel fuel ps s ||
        (match s with
         | [] => false
         | _ :: cs => globMatchFuel fuel ('*' :: ps) cs)
  | fuel + 1, '?' :: ps, _ :: cs => globMatchFuel fuel ps cs
  | fuel + 1, p :: ps, c :: cs => (p = c) && globMatchFuel fuel ps cs
  | _ + 1, _, _ => false

/-- Shell-glob matching of a pattern against a key. -/
def globMatch (pat key : String) : Bool :=
  globMatchFuel (pat.length + key.length + 1) pat.data key.data

/-- State of the `CacheManager` singleton: whether `self.redis_client` is
set (a failed `connect` leaves it `None` — disabled mode) and the backend
key space. -/
structure CacheState where
  connected : Bool
  entries : StoreEntries

/-- `CacheManager.get`: `None` when disabled, `None` on a missing key,
otherwise the deserialized stored value. Note the Python `None` result is
`PyVal.pynone` — the same value a stored JSON `null` deserializes to. -/
def CacheState.get (st : CacheState) (key : String) : PyVal :=
  if !st.connected then .pynone
  else
    match lookupKey st.entries key with
    | some (v, _) => v
    | none => .pynone

/-- `CacheManager.set`: `False` without touching anything when disabled,
otherwise `SETEX` the serialized value with the given TTL and `True`. -/
def CacheState.set (st : CacheState) (key : String) (value : PyVal) (ttl : Nat) :
    Bool × CacheState :=
  if !st.connected then (false, st)
  else (true, ⟨st.connected, setEntry st.entries key (jsonRoundTrip value) ttl⟩)

/-- `CacheManager.delete`: `False` when disabled; otherwise it issues
`DEL` and returns `True` unconditionally — the code ignores Redis's
deleted-key count, so the result does not depend on whether the key was
present. -/
def CacheState.delete (st : CacheState) (key : String) : Bool × CacheState :=
  if !st.connected then (false, st)
  else (true, ⟨st.connected, removeKey st.entries key⟩)

/-- `CacheManager.clear_pattern`: 0 when disabled; otherwise `KEYS pattern`
followed, when the result is non-empty, by a batch `DEL` whose deleted
count (every listed key exists) is returned. -/
def CacheState.clear_pattern (st : CacheState) (pat : String) : Nat × CacheState :=
  if !st.connected then (0, st)
  else
    let ks := (st.entries.filter (fun e => globMatch pat e.1)).map (fun e => e.1)
    if ks.isEmpty then (0, st)
    else (ks.length, ⟨st.connected, st.entries.filter (fun e => !ks.contains e.1)⟩)

/-! ### The Memoizer (`cache_result`, `app/core/decorators.py`) -/

/-- Python `x is None` on a cache lookup result. -/
def isNone : PyVal → Bool
  | .pynone => true
  | _ => false

/-- Outcome of one call to a `cache_result`-wrapped operation: the value
returned to the caller, whether the wrapped operation was executed
(observable instrumentation of the `func(*args, **kwargs)` call), and the
store state afterwards. -/
structure CallResult where
  value : PyVal
  executed : Bool
  state : CacheState

/-- Faithful model of the `wrapper` closure produced by
`cache_result(ttl, key_prefix)` around an idempotent async operation
`func` (modelled as a pure function of its arguments): derive the key,
try `get`; on a non-`None` result return it without executing `func`;
otherwise execute `func`, attempt `set` with the configured TTL (its
boolean result is only logged), and return the fresh result. -/
def cacheWrapper (ttl : Nat) (keyPfx func_name : String)
    (func : List PyVal → List (String × PyVal) → PyVal)
    (args : List PyVal) (kwargs : List (String × PyVal))
    (st : CacheState) : CallResult :=
  let cache_key := generate_cache_key func_name keyPfx args kwargs
  let cached_result := st.get cache_key
  if !isNone cached_result then ⟨cached_result, false, st⟩
  else
    let result := func args kwargs
    let step := st.set cache_key result ttl
    ⟨result, true, step.2⟩

/-! ### The Rate Limiter (`RateLimiter`, `app/core/rate_limiter.py`) -/

/-- Static configuration of a `RateLimiter` instance. -/
structure RateLimiter where
  max_requests : Nat
  window_seconds : Nat

/-- Python `isinstance(x, int)` (booleans are `int` in Python) followed by
use as an integer: `count_data if isinstance(count_data, int) else 0`. -/
def pyIntValue : PyVal → Option Int
  | .pyint n => some n
  | .pybool b => some (if b then 1 else 0)
  | _ => none

/-- The `current_count` coercion of `RateLimiter.is_allowed`: a stored
count that is absent (`None`) or non-integer counts as 0. -/
def toCount (v : PyVal) : Int := (pyIntValue v).getD 0

/-- The fixed-window key `f"rate_limit:{identifier}:{window_start}"`. -/
def rateKey (identifier : String) (windowStart : Nat) : String :=
  "rate_limit:" ++ identifier ++ ":" ++ toString windowStart

/-- Faithful model of `RateLimiter.is_allowed`, with `int(time.time())`
passed in as `now`: compute the window start and key, read the counter
(absent/non-integer as 0), deny without any write when the counter has
reached `max_requests`, otherwise store the incremented counter with the
window length as TTL (the `set` result is ignored) and allow. -/
def RateLimiter.is_allowed (rl : RateLimiter) (st : CacheState)
    (identifier : String) (now : Nat) : Bool × CacheState :=
  let window_start := now / rl.window_seconds * rl.window_seconds
  let key := rateKey identifier window_start
  let current_count := toCount (st.get key)
  if current_count ≥ (rl.max_requests : Int) then (false, st)
  else
    let step := st.set key (.pyint (current_count + 1)) rl.window_seconds
    (true, step.2)

/-- A sequence of sequential `is_allowed` checks at the given times:
the list of allow/deny results and the final store state. -/
def runChecks (rl : RateLimiter) (identifier : String) :
    CacheState → List Nat → List Bool × CacheState
  | st, [] => ([], st)
  | st, t :: ts =>
      let step := rl.is_allowed st identifier t
      let rest := runChecks rl identifier step.2 ts
      (step.1 :: rest.1, rest.2)

/-- Repeated calls of a wrapped operation with the same arguments; returns
the `executed` flag of each successive call. -/
def runWrapperCalls (ttl : Nat) (keyPfx func_name : String)
    (func : List PyVal → List (String × PyVal) → PyVal)
    (args : List PyVal) (kwargs : List (String × PyVal)) :
    CacheState → Nat → List Bool
  | _, 0 => []
  | st, n + 1 =>
      let r := cacheWrapper ttl keyPfx func_name func args kwargs st
      r.executed :: runWrapperCalls ttl keyPfx func_name func args kwargs r.state n

/-! ## Helper lemmas about the store -/

/-- A `SETEX` makes the written key read back as the written entry. -/
theorem lookup_setEntry_self (e : StoreEntries) (k : String) (v : PyVal) (t : Nat) :
    lookupKey (setEntry e k v t) k = some (v, t) := by
  induction e with
  | nil => simp [setEntry, lookupKey]
  | cons hd tl ih =>
    obtain ⟨k', v', t'⟩ := hd
    by_cases h : k' = k <;> simp [setEntry, lookupKey, h, ih]

/-- A `SETEX` leaves every other key unchanged. -/
theorem lookup_setEntry_ne (e : StoreEntries) (k k' : String) (v : PyVal) (t : Nat)
    (h : k ≠ k') : lookupKey (setEntry e k' v t) k = lookupKey e k := by
  induction e with
  | nil => simp [setEntry, lookupKey, Ne.symm h]
  | cons hd tl ih =>
    obtain ⟨k'', v', t'⟩ := hd
    by_cases h2 : k'' = k'
    · subst h2
      simp [setEntry, lookupKey, Ne.symm h]
    · by_cases h3 : k'' = k <;> simp [setEntry, lookupKey, h2, h3, h, ih]

/-- A `SETEX` never removes a key. -/
theorem isSome_lookup_setEntry (e : StoreEntries) (k k' : String) (v : PyVal) (t : Nat)
    (h : (lookupKey e k).isSome) : (lookupKey (setEntry e k' v t) k).isSome := by
  by_cases hk : k = k'
  · subst hk
    simp [lookup_setEntry_self]
  · rwa [lookup_setEntry_ne e k k' v t hk]

/-- A single-key `DEL` makes the key read back as absent. -/
theorem lookup_removeKey_self (e : StoreEntries) (k : String) :
    lookupKey (removeKey e k) k = none := by
  induction e with
  | nil => simp [removeKey, lookupKey]
  | cons hd tl ih =>
    obtain ⟨k', v, t⟩ := hd
    by_cases h : k' = k <;> simp [removeKey, lookupKey, h, ih]

/-- Reading back the key just written on a connected store yields the
deserialized form of the written value. -/
theorem get_set_self (st : CacheState) (k : String) (v : PyVal) (t : Nat)
    (h : st.connected = true) : ((st.set k v t).2).get k = jsonRoundTrip v := by
  simp [CacheState.set, CacheState.get, h, lookup_setEntry_self]

/-- A `set` does not change whether the store is connected. -/
theorem set_snd_connected (st : CacheState) (k : String) (v : PyVal) (t : Nat) :
    ((st.set k v t).2).connected = st.connected := by
  by_cases h : st.connected <;> simp [CacheState.set, h]

/-! ## Claim C4 -/

/-- C4 (code bug): the claim — and the docstring of `_generate_cache_key`
("Skips the first argument if it's a 'self' instance") — say the first
positional argument is excluded exactly when it is a context-like object
and that a semantic first positional argument contributes to the key. The
code's guard (`hasClassWithMro`) is true of every Python 3 object, so the
first positional argument is always dropped: two calls whose only
difference is a semantic integer first argument (the docstring's own
`get_user(user_id)` example) derive the identical key. -/
theorem claim_C4_first_positional_always_excluded :
    generate_cache_key "get_user" "user" [PyVal.pyint 42] [] =
      generate_cache_key "get_user" "user" [PyVal.pyint 99] [] ∧
    PyVal.pyint 42 ≠ PyVal.pyint 99 :=
  ⟨congrArg md5hex (by decide), by simp⟩

/-! ## Claim C9 -/

/-- C9 (counterexample): `delete` on a connected store whose key space
does not contain the key still returns `true` — the code ignores Redis's
deleted-key count — contradicting the claim that `delete` returns `false`
when the key is absent. -/
theorem claim_C9_counterexample :
    ((⟨true, []⟩ : CacheState).delete "tasks_by_owner:1").1 = true ∧
    lookupKey (⟨true, []⟩ : CacheState).entries "tasks_by_owner:1" = none :=
  ⟨rfl, rfl⟩

/-- C9 (amended): `delete` returns `false` exactly when the store is
disabled (leaving the state untouched); on a connected store it issues the
deletion and returns `true` whether or not the key was present, and the
key is absent afterwards. -/
theorem claim_C9_delete_result_matches_connection (st : CacheState) (k : String) :
    (st.connected = false → st.delete k = (false, st)) ∧
    (st.connected = true →
      (st.delete k).1 = true ∧ lookupKey ((st.delete k).2).entries k = none) := by
  constructor
  · intro h
    simp [CacheState.delete, h]
  · intro h
    exact ⟨by simp [CacheState.delete, h],
           by simp [CacheState.delete, h, lookup_removeKey_self]⟩

/-- Witness for C9's amended theorem: a disabled store and a connected
store holding the key, at concrete inputs. -/
theorem claim_C9_delete_result_matches_connection_witness :
    ((⟨false, []⟩ : CacheState).delete "k" = (false, (⟨false, []⟩ : CacheState))) ∧
    (((⟨true, [("k", PyVal.pyint 1, 60)]⟩ : CacheState).delete "k").1 = true ∧
      lookupKey (((⟨true, [("k", PyVal.pyint 1, 60)]⟩ : CacheState).delete "k").2).entries "k" =
        none) :=
  ⟨(claim_C9_delete_result_matches_connection ⟨false, []⟩ "k").1 rfl,
   (claim_C9_delete_result_matches_connection ⟨true, [("k", PyVal.pyint 1, 60)]⟩ "k").2 rfl⟩

/-! ## Claim C7 -/

/-- C7: a rate-limiter check that observes a counter at or above
`max_requests` denies and returns the store state unchanged — the counter
for the window key and every other key are exactly as before. -/
theorem claim_C7_denied_check_leaves_store_unchanged (rl : RateLimiter) (st : CacheState)
    (identifier : String) (now : Nat)
    (h : toCount (st.get (rateKey identifier (now / rl.window_seconds * rl.window_seconds)))
        ≥ (rl.max_requests : Int)) :
    rl.is_allowed st identifier now = (false, st) := by
  simp only [RateLimiter.is_allowed]
  rw [if_pos h]

/-- Witness for C7: a saturated counter (3 of 3) in the current window. -/
theorem claim_C7_denied_check_leaves_store_unchanged_witness :
    toCount ((⟨true, [(rateKey "client" 0, PyVal.pyint 3, 60)]⟩ : CacheState).get
        (rateKey "client" (5 / 60 * 60))) ≥ (((⟨3, 60⟩ : RateLimiter).max_requests : Nat) : Int) ∧
    RateLimiter.is_allowed ⟨3, 60⟩ ⟨true, [(rateKey "client" 0, PyVal.pyint 3, 60)]⟩ "client" 5 =
      (false, (⟨true, [(rateKey "client" 0, PyVal.pyint 3, 60)]⟩ : CacheState)) :=
  ⟨by decide,
   claim_C7_denied_check_leaves_store_unchanged ⟨3, 60⟩
     ⟨true, [(rateKey "client" 0, PyVal.pyint 3, 60)]⟩ "client" 5 (by decide)⟩

/-! ## Claim C5 -/

/-- C5: in disabled mode (no backend connection) every operation returns
its neutral result without touching the state: `get` is absence (`None`),
`set` and `delete` are `false`, `clear_pattern` is 0, a memoized call
executes the wrapped operation and returns its fresh result, and a
rate-limiter check (with a meaningful configuration, `max_requests ≥ 1`)
allows. All branches are total — nothing raises. -/
theorem claim_C5_disabled_mode (st : CacheState) (h : st.connected = false)
    (k pat : String) (v : PyVal) (ttl : Nat) (keyPfx fn : String)
    (func : List PyVal → List (String × PyVal) → PyVal)
    (args : List PyVal) (kwargs : List (String × PyVal))
    (rl : RateLimiter) (hmax : 0 < rl.max_requests) (identifier : String) (now : Nat) :
    st.get k = PyVal.pynone ∧
    st.set k v ttl = (false, st) ∧
    st.delete k = (false, st) ∧
    st.clear_pattern pat = (0, st) ∧
    cacheWrapper ttl keyPfx fn func args kwargs st = ⟨func args kwargs, true, st⟩ ∧
    rl.is_allowed st identifier now = (true, st) := by
  refine ⟨?_, ?_, ?_, ?_, ?_, ?_⟩
  · simp [CacheState.get, h]
  · simp [CacheState.set, h]
  · simp [CacheState.delete, h]
  · simp [CacheState.clear_pattern, h]
  · simp [cacheWrapper, CacheState.get, CacheState.set, h, isNone]
  · simp only [RateLimiter.is_allowed]
    rw [if_neg (by simp [CacheState.get, h, toCount, pyIntValue]; omega)]
    simp [CacheState.get, h, toCount, pyIntValue, CacheState.set]

/-- Witness for C5: a disabled store that still carries a stale entry, at
concrete inputs for every operation. -/
theorem claim_C5_disabled_mode_witness :
    (⟨false, [("x", PyVal.pyint 1, 9)]⟩ : CacheState).get "x" = PyVal.pynone ∧
    (⟨false, [("x", PyVal.pyint 1, 9)]⟩ : CacheState).set "x" (PyVal.pyint 2) 60 =
      (false, (⟨false, [("x", PyVal.pyint 1, 9)]⟩ : CacheState)) ∧
    (⟨false, [("x", PyVal.pyint 1, 9)]⟩ : CacheState).delete "x" =
      (false, (⟨false, [("x", PyVal.pyint 1, 9)]⟩ : CacheState)) ∧
    (⟨false, [("x", PyVal.pyint 1, 9)]⟩ : CacheState).clear_pattern "*" =
      (0, (⟨false, [("x", PyVal.pyint 1, 9)]⟩ : CacheState)) ∧
    cacheWrapper 60 "p" "f" (fun _ _ => PyVal.pyint 7) [] []
        ⟨false, [("x", PyVal.pyint 1, 9)]⟩ =
      ⟨(fun (_ : List PyVal) (_ : List (String × PyVal)) => PyVal.pyint 7) [] [], true,
        (⟨false, [("x", PyVal.pyint 1, 9)]⟩ : CacheState)⟩ ∧
    RateLimiter.is_allowed ⟨10, 60⟩ ⟨false, [("x", PyVal.pyint 1, 9)]⟩ "client" 0 =
      (true, (⟨false, [("x", PyVal.pyint 1, 9)]⟩ : CacheState)) :=
  claim_C5_disabled_mode ⟨false, [("x", PyVal.pyint 1, 9)]⟩ rfl "x" "*" (PyVal.pyint 2) 60
    "p" "f" (fun _ _ => PyVal.pyint 7) [] [] ⟨10, 60⟩ (by decide) "client" 0

/-! ## Claim C2 -/

/-- C2: the cache-aside contract of the memoizer. When the store lookup
for the derived key yields a present (non-`None`) value, that cached value
is returned and the wrapped operation is not executed, with the store
untouched; when it yields absence, the wrapped operation is executed, its
result is offered to `set` with the configured TTL, and the fresh result
is returned whether or not the `set` succeeded (the resulting state is
exactly the state `set` produced, successful or not). -/
theorem claim_C2_memoizer_contract (ttl : Nat) (keyPfx fn : String)
    (func : List PyVal → List (String × PyVal) → PyVal)
    (args : List PyVal) (kwargs : List (String × PyVal)) (st : CacheState) :
    (isNone (st.get (generate_cache_key fn keyPfx args kwargs)) = false →
      cacheWrapper ttl keyPfx fn func args kwargs st =
        ⟨st.get (generate_cache_key fn keyPfx args kwargs), false, st⟩) ∧
    (isNone (st.get (generate_cache_key fn keyPfx args kwargs)) = true →
      cacheWrapper ttl keyPfx fn func args kwargs st =
        ⟨func args kwargs, true,
          (st.set (generate_cache_key fn keyPfx args kwargs) (func args kwargs) ttl).2⟩) := by
  constructor
  · intro hhit
    simp [cacheWrapper, hhit]
  · intro hmiss
    simp [cacheWrapper, hmiss]

/-- Witness for C2: a hit on a store populated at the derived key, and a
miss on an empty connected store. -/
theorem claim_C2_memoizer_contract_witness :
    cacheWrapper 60 "p" "f" (fun _ _ => PyVal.pyint 7) [] []
        (((⟨true, []⟩ : CacheState).set (generate_cache_key "f" "p" [] []) (PyVal.pyint 5) 60).2) =
      ⟨PyVal.pyint 5, false,
        ((⟨true, []⟩ : CacheState).set (generate_cache_key "f" "p" [] []) (PyVal.pyint 5) 60).2⟩ ∧
    cacheWrapper 60 "p" "f" (fun _ _ => PyVal.pyint 7) [] [] ⟨true, []⟩ =
      ⟨(fun (_ : List PyVal) (_ : List (String × PyVal)) => PyVal.pyint 7) [] [], true,
        ((⟨true, []⟩ : CacheState).set (generate_cache_key "f" "p" [] [])
          ((fun (_ : List PyVal) (_ : List (String × PyVal)) => PyVal.pyint 7) [] []) 60).2⟩ := by
  have hget : (((⟨true, []⟩ : CacheState).set (generate_cache_key "f" "p" [] [])
      (PyVal.pyint 5) 60).2).get (generate_cache_key "f" "p" [] []) = PyVal.pyint 5 :=
    get_set_self _ _ _ _ rfl
  constructor
  · have h1 := (claim_C2_memoizer_contract 60 "p" "f" (fun _ _ => PyVal.pyint 7) [] []
      (((⟨true, []⟩ : CacheState).set (generate_cache_key "f" "p" [] [])
        (PyVal.pyint 5) 60).2)).1
    rw [hget] at h1
    exact h1 rfl
  · exact (claim_C2_memoizer_contract 60 "p" "f" (fun _ _ => PyVal.pyint 7) [] []
      ⟨true, []⟩).2 rfl

/-! ## Claim C10 -/

/-- C10: a wrapped operation whose result is `None` is never served from
cache. The miss branch stores JSON `null`, which a later `get` returns as
the same `None` the miss test checks for, so every successive call with
those arguments executes the wrapped operation again. -/
theorem claim_C10_none_results_never_cached (ttl : Nat) (keyPfx fn : String)
    (func : List PyVal → List (String × PyVal) → PyVal)
    (args : List PyVal) (kwargs : List (String × PyVal)) (st : CacheState)
    (hfunc : func args kwargs = PyVal.pynone)
    (h0 : st.get (generate_cache_key fn keyPfx args kwargs) = PyVal.pynone) :
    ∀ n, runWrapperCalls ttl keyPfx fn func args kwargs st n = List.replicate n true := by
  intro n
  induction n generalizing st with
  | zero => simp [runWrapperCalls]
  | succ m ih =>
    have hwrap : cacheWrapper ttl keyPfx fn func args kwargs st =
        ⟨PyVal.pynone, true,
          (st.set (generate_cache_key fn keyPfx args kwargs) PyVal.pynone ttl).2⟩ := by
      simp [cacheWrapper, h0, isNone, hfunc]
    have hnext : ((st.set (generate_cache_key fn keyPfx args kwargs) PyVal.pynone ttl).2).get
        (generate_cache_key fn keyPfx args kwargs) = PyVal.pynone := by
      by_cases hc : st.connected = true
      · rw [get_set_self _ _ _ _ hc]
        rfl
      · have hc' : st.connected = false := by
          simpa using hc
        have hset : st.set (generate_cache_key fn keyPfx args kwargs) PyVal.pynone ttl =
            (false, st) := by
          simp [CacheState.set, hc']
        rw [hset]
        exact h0
    simp only [runWrapperCalls, hwrap, List.replicate]
    exact congrArg (true :: ·) (ih _ hnext)

/-- Witness for C10: a constant-`None` operation on an empty connected
store re-executes on both of two successive calls. -/
theorem claim_C10_none_results_never_cached_witness :
    (fun (_ : List PyVal) (_ : List (String × PyVal)) => PyVal.pynone) [] [] = PyVal.pynone ∧
    runWrapperCalls 60 "p" "f" (fun _ _ => PyVal.pynone) [] [] ⟨true, []⟩ 2 =
      List.replicate 2 true :=
  ⟨rfl, claim_C10_none_results_never_cached 60 "p" "f" (fun _ _ => PyVal.pynone) [] []
    ⟨true, []⟩ rfl rfl 2⟩

/-! ## Helper lemmas for the key generator -/

/-- A left fold that appends an optional element per input equals the
initial accumulator followed by the `filterMap` of the inputs. -/
theorem foldl_opt_append {α : Type} (g : List String → α → List String)
    (f : α → Option String) (hg : ∀ acc x, g acc x = acc ++ (f x).toList) :
    ∀ (l : List α) (init : List String), l.foldl g init = init ++ l.filterMap f := by
  intro l
  induction l with
  | nil =>
    intro init
    simp
  | cons a t ih =>
    intro init
    rw [List.foldl_cons, hg, ih, List.filterMap_cons]
    cases h : f a <;> simp [h, List.append_assoc]

/-- Rendering of one positional argument as the spec's final-key sentence
describes it: its serialized form when non-empty, no contribution
otherwise. -/
def posOptPart (arg : PyVal) : Option String :=
  if serialize_value arg ≠ "" then some (serialize_value arg) else none

/-- Rendering of one named argument as the spec's final-key sentence
describes it: `"name=serializedvalue"` when the serialization is
non-empty, no contribution otherwise. -/
def kwargOptPart (kwargs : List (String × PyVal)) (k : String) : Option String :=
  match lookupKw kwargs k with
  | some v =>
      if serialize_value v ≠ "" then some (k ++ "=" ++ serialize_value v) else none
  | none => none

/-- The non-empty serialized positional parts, in original order, of the
positional arguments the generator includes (`args[start_idx:]`). -/
def positionalParts (args : List PyVal) : List String :=
  (args.drop (startIdx args)).filterMap posOptPart

/-- The `"name=serializedvalue"` parts, for named arguments sorted
lexicographically by name. -/
def kwargParts (kwargs : List (String × PyVal)) : List String :=
  (sortStrings (kwargs.map Prod.fst)).filterMap (kwargOptPart kwargs)

/-- The loop-built `cache_key_data` equals the colon-join of the
spec-shaped part list: prefix, operation name, included positional parts,
named-argument parts by sorted name. -/
theorem cache_key_data_eq (fn keyPfx : String) (args : List PyVal)
    (kwargs : List (String × PyVal)) :
    cache_key_data fn keyPfx args kwargs =
      pyJoin ":" ([keyPfx, fn] ++ positionalParts args ++ kwargParts kwargs) := by
  simp only [cache_key_data, positionalParts, kwargParts]
  rw [foldl_opt_append _ posOptPart (by
    intro acc x
    by_cases h : serialize_value x = "" <;> simp [posOptPart, h])]
  rw [foldl_opt_append _ (kwargOptPart kwargs) (by
    intro acc k
    unfold kwargOptPart
    cases h : lookupKw kwargs k with
    | none => simp [h]
    | some v =>
      by_cases h2 : serialize_value v = "" <;> simp [h, h2])]

/-- On an association list with pairwise-distinct keys, a successful
lookup is exactly membership of the pair. -/
theorem lookupKw_eq_some_iff {l : List (String × PyVal)} (h : (l.map Prod.fst).Nodup)
    {k : String} {v : PyVal} : lookupKw l k = some v ↔ (k, v) ∈ l := by
  induction l with
  | nil => simp [lookupKw]
  | cons a t ih =>
    obtain ⟨k', v'⟩ := a
    simp only [List.map_cons, List.nodup_cons] at h
    by_cases hk : k' = k
    · subst hk
      have hfind : lookupKw ((k', v') :: t) k' = some v' := by
        simp [lookupKw, List.find?_cons]
      rw [hfind]
      constructor
      · intro hv
        obtain rfl : v' = v := by injection hv
        exact List.mem_cons_self _ _
      · intro hm
        rcases List.mem_cons.mp hm with heq | hmem
        · rw [Prod.mk.injEq] at heq
          rw [heq.2]
        · exact absurd (List.mem_map_of_mem Prod.fst hmem) h.1
    · have hfind : lookupKw ((k', v') :: t) k = lookupKw t k := by
        simp [lookupKw, List.find?_cons, hk]
      rw [hfind, ih h.2]
      simp [List.mem_cons, Prod.mk.injEq, Ne.symm hk]

/-- Permuting an association list with pairwise-distinct keys does not
change any lookup. -/
theorem lookupKw_perm {l₁ l₂ : List (String × PyVal)} (hp : l₁.Perm l₂)
    (h : (l₁.map Prod.fst).Nodup) (k : String) : lookupKw l₁ k = lookupKw l₂ k := by
  have h₂ : (l₂.map Prod.fst).Nodup := (hp.map Prod.fst).nodup_iff.mp h
  cases hv : lookupKw l₁ k with
  | some v =>
    exact ((lookupKw_eq_some_iff h₂).mpr
      (hp.mem_iff.mp ((lookupKw_eq_some_iff h).mp hv))).symm
  | none =>
    cases hv₂ : lookupKw l₂ k with
    | none => rfl
    | some v =>
      have : lookupKw l₁ k = some v :=
        (lookupKw_eq_some_iff h).mpr (hp.mem_iff.mpr ((lookupKw_eq_some_iff h₂).mp hv₂))
      rw [hv] at this
      exact absurd this (by simp)

/-- Sorting is invariant under permutation of the input (string keys form
a linear order, so the sorted form is unique). -/
theorem sortStrings_perm_eq {l₁ l₂ : List String} (hp : l₁.Perm l₂) :
    sortStrings l₁ = sortStrings l₂ :=
  List.eq_of_perm_of_sorted
    (((List.perm_insertionSort _ l₁).trans hp).trans
      (List.perm_insertionSort _ l₂).symm)
    (List.sorted_insertionSort _ l₁)
    (List.sorted_insertionSort _ l₂)

/-- The named-argument parts of the key are invariant under permutation of
the named arguments (same mapping, different supply order). -/
theorem kwargParts_perm {kw₁ kw₂ : List (String × PyVal)} (hp : kw₁.Perm kw₂)
    (h : (kw₁.map Prod.fst).Nodup) : kwargParts kw₁ = kwargParts kw₂ := by
  unfold kwargParts
  rw [sortStrings_perm_eq (hp.map Prod.fst)]
  have hfun : kwargOptPart kw₁ = kwargOptPart kw₂ := by
    funext k
    unfold kwargOptPart
    rw [lookupKw_perm hp h k]
  rw [hfun]

/-! ## Claim C1 -/

/-- C1: the derived cache key is the MD5 hash of the colon-joined
sequence: prefix, operation name, each non-empty serialized part of the
positional arguments the generator includes (in original order), then
each `"name=serializedvalue"` for named arguments sorted lexicographically
by name; consequently two calls whose named arguments are the same mapping
supplied in different orders (a permutation with distinct names, as Python
keyword arguments always are) derive the identical key. -/
theorem claim_C1_key_structure_and_kwarg_order_independence
    (keyPfx fn : String) (args : List PyVal) (kw₁ kw₂ : List (String × PyVal))
    (h₁ : (kw₁.map Prod.fst).Nodup) (hp : kw₁.Perm kw₂) :
    generate_cache_key fn keyPfx args kw₁ =
      md5hex (pyJoin ":" ([keyPfx, fn] ++ positionalParts args ++ kwargParts kw₁)) ∧
    generate_cache_key fn keyPfx args kw₁ = generate_cache_key fn keyPfx args kw₂ := by
  constructor
  · unfold generate_cache_key
    rw [cache_key_data_eq]
  · unfold generate_cache_key
    rw [cache_key_data_eq, cache_key_data_eq, kwargParts_perm hp h₁]

/-- Witness for C1: `f(session, b=2, a="x")` against `f(session, a="x", b=2)`. -/
theorem claim_C1_key_structure_and_kwarg_order_independence_witness :
    (([("b", PyVal.pyint 2), ("a", PyVal.pystr "x")].map Prod.fst).Nodup ∧
      List.Perm [("b", PyVal.pyint 2), ("a", PyVal.pystr "x")]
        [("a", PyVal.pystr "x"), ("b", PyVal.pyint 2)]) ∧
    (generate_cache_key "f" "p" [PyVal.pysession 0]
        [("b", PyVal.pyint 2), ("a", PyVal.pystr "x")] =
      md5hex (pyJoin ":" (["p", "f"] ++ positionalParts [PyVal.pysession 0] ++
        kwargParts [("b", PyVal.pyint 2), ("a", PyVal.pystr "x")])) ∧
    generate_cache_key "f" "p" [PyVal.pysession 0]
        [("b", PyVal.pyint 2), ("a", PyVal.pystr "x")] =
      generate_cache_key "f" "p" [PyVal.pysession 0]
        [("a", PyVal.pystr "x"), ("b", PyVal.pyint 2)]) :=
  ⟨⟨by decide, List.Perm.swap _ _ _⟩,
   claim_C1_key_structure_and_kwarg_order_independence "p" "f" [PyVal.pysession 0]
     [("b", PyVal.pyint 2), ("a", PyVal.pystr "x")]
     [("a", PyVal.pystr "x"), ("b", PyVal.pyint 2)]
     (by decide) (List.Perm.swap _ _ _)⟩

/-! ## Helper lemmas for claim C6 -/

/-- Right cancellation of string concatenation. -/
theorem str_append_cancel_right {t s₁ s₂ : String} (h : s₁ ++ t = s₂ ++ t) : s₁ = s₂ := by
  apply String.ext
  have hd := congrArg String.data h
  simp only [String.data_append] at hd
  exact List.append_cancel_right hd

/-- Left cancellation of string concatenation. -/
theorem str_append_cancel_left {p s₁ s₂ : String} (h : p ++ s₁ = p ++ s₂) : s₁ = s₂ := by
  apply String.ext
  have hd := congrArg String.data h
  simp only [String.data_append] at hd
  exact List.append_cancel_left hd

/-- Unfolding of `pyJoin` on a cons with a non-empty tail. -/
theorem pyJoin_cons_of_ne_nil (sep x : String) {l : List String} (h : l ≠ []) :
    pyJoin sep (x :: l) = x ++ sep ++ pyJoin sep l := by
  cases l with
  | nil => exact absurd rfl h
  | cons y t => rfl

/-- Two part lists that agree except for one differing part (at the same
position) have different colon-joins. -/
theorem pyJoin_middle_ne (xs ys : List String) {a b : String} (h : a ≠ b) :
    pyJoin ":" (xs ++ a :: ys) ≠ pyJoin ":" (xs ++ b :: ys) := by
  induction xs with
  | nil =>
    cases ys with
    | nil => simpa [pyJoin] using h
    | cons y t =>
      simp only [List.nil_append]
      rw [pyJoin_cons_of_ne_nil ":" a (show y :: t ≠ [] from by simp),
          pyJoin_cons_of_ne_nil ":" b (show y :: t ≠ [] from by simp)]
      intro hEq
      exact h (str_append_cancel_right (str_append_cancel_right hEq))
  | cons x t ih =>
    simp only [List.cons_append]
    rw [pyJoin_cons_of_ne_nil ":" x (show t ++ a :: ys ≠ [] from by simp),
        pyJoin_cons_of_ne_nil ":" x (show t ++ b :: ys ≠ [] from by simp)]
    intro hEq
    exact ih (str_append_cancel_left hEq)

/-- Rendering of one named-argument pair: `"name=serializedvalue"` when
the serialization is non-empty, nothing otherwise. -/
def kwargRender (kv : String × PyVal) : Option String :=
  if serialize_value kv.2 ≠ "" then some (kv.1 ++ "=" ++ serialize_value kv.2) else none

/-- Looking up each key of an association list with pairwise-distinct keys
renders the list entry by entry. -/
theorem filterMap_kwargOptPart_keys {l : List (String × PyVal)}
    (h : (l.map Prod.fst).Nodup) :
    (l.map Prod.fst).filterMap (kwargOptPart l) = l.filterMap kwargRender := by
  induction l with
  | nil => rfl
  | cons a t ih =>
    obtain ⟨k₀, v₀⟩ := a
    simp only [List.map_cons, List.nodup_cons] at h
    have hhead : kwargOptPart ((k₀, v₀) :: t) k₀ = kwargRender (k₀, v₀) := by
      unfold kwargOptPart kwargRender
      simp [lookupKw, List.find?_cons]
    have htail : (t.map Prod.fst).filterMap (kwargOptPart ((k₀, v₀) :: t)) =
        (t.map Prod.fst).filterMap (kwargOptPart t) := by
      apply List.filterMap_congr
      intro k hk
      have hne : k₀ ≠ k := fun he => h.1 (he ▸ hk)
      unfold kwargOptPart
      simp [lookupKw, List.find?_cons, hne]
    simp only [List.map_cons, List.filterMap_cons, hhead, htail, ih h.2]

/-- When the named arguments are already supplied with sorted distinct
names, the named parts of the key are the entry-by-entry rendering. -/
theorem kwargParts_of_sorted_nodup {l : List (String × PyVal)}
    (h : (l.map Prod.fst).Nodup)
    (hs : List.Sorted (fun a b => a ≤ b) (l.map Prod.fst)) :
    kwargParts l = l.filterMap kwargRender := by
  unfold kwargParts sortStrings
  rw [List.Sorted.insertionSort_eq hs]
  exact filterMap_kwargOptPart_keys h

/-! ## Claim C6 -/

/-- C6 (counterexample): two calls agreeing on prefix, operation name and
all other included arguments and differing in the value of one included
named argument — `None` (the null shape) versus the string `"None"` (the
scalar string shape), both shapes the claim lists — produce the *same*
pre-hash colon-joined string and hence the same cache key, because
`_serialize_value` collapses both values to the four characters `None`. -/
theorem claim_C6_counterexample :
    cache_key_data "get_items" "items" [] [("flag", PyVal.pynone)] =
      cache_key_data "get_items" "items" [] [("flag", PyVal.pystr "None")] ∧
    generate_cache_key "get_items" "items" [] [("flag", PyVal.pynone)] =
      generate_cache_key "get_items" "items" [] [("flag", PyVal.pystr "None")] ∧
    PyVal.pynone ≠ PyVal.pystr "None" :=
  ⟨by decide, congrArg md5hex (by decide), by simp⟩

/-- C6 (amended): changing the value of one included argument changes the
pre-hash colon-joined string — and hence the key, short of a hash
collision — *provided* the two values have distinct non-empty
serializations. (Distinct values of distinct shapes can share one
serialization, e.g. `None` vs `"None"`, `1` vs `"1"`; then the keys
coincide, which is what the counterexample exhibits.) The positional
conjunct varies an included positional argument (one after the
always-excluded first, cf. C4); the named conjunct varies the value of one
named argument, with the named arguments supplied with sorted distinct
names (by C1 the key ignores the supply order, so this loses no
generality). -/
theorem claim_C6_distinct_serializations_give_distinct_prehash
    (keyPfx fn : String) (a0 : PyVal) (pre post : List PyVal) (a b : PyVal)
    (kw : List (String × PyVal))
    (hab : serialize_value a ≠ serialize_value b)
    (ha : serialize_value a ≠ "") (hb : serialize_value b ≠ "")
    (m m' : List (String × PyVal)) (k : String) (va vb : PyVal)
    (hkeys : ((m ++ (k, va) :: m').map Prod.fst).Nodup)
    (hsorted : List.Sorted (fun x y => x ≤ y) ((m ++ (k, va) :: m').map Prod.fst))
    (hvab : serialize_value va ≠ serialize_value vb)
    (hva : serialize_value va ≠ "") (hvb : serialize_value vb ≠ "") :
    cache_key_data fn keyPfx (a0 :: pre ++ a :: post) kw ≠
      cache_key_data fn keyPfx (a0 :: pre ++ b :: post) kw ∧
    cache_key_data fn keyPfx [] (m ++ (k, va) :: m') ≠
      cache_key_data fn keyPfx [] (m ++ (k, vb) :: m') := by
  constructor
  · rw [cache_key_data_eq, cache_key_data_eq]
    have h1 : [keyPfx, fn] ++ positionalParts (a0 :: pre ++ a :: post) ++ kwargParts kw =
        (keyPfx :: fn :: pre.filterMap posOptPart) ++
          serialize_value a :: (post.filterMap posOptPart ++ kwargParts kw) := by
      simp [positionalParts, startIdx, hasClassWithMro, List.filterMap_append,
            List.filterMap_cons, posOptPart, ha, List.append_assoc]
    have h2 : [keyPfx, fn] ++ positionalParts (a0 :: pre ++ b :: post) ++ kwargParts kw =
        (keyPfx :: fn :: pre.filterMap posOptPart) ++
          serialize_value b :: (post.filterMap posOptPart ++ kwargParts kw) := by
      simp [positionalParts, startIdx, hasClassWithMro, List.filterMap_append,
            List.filterMap_cons, posOptPart, hb, List.append_assoc]
    rw [h1, h2]
    exact pyJoin_middle_ne _ _ hab
  · rw [cache_key_data_eq, cache_key_data_eq]
    have hmap : (m ++ (k, vb) :: m').map Prod.fst = (m ++ (k, va) :: m').map Prod.fst := by
      simp
    have hkeys' : ((m ++ (k, vb) :: m').map Prod.fst).Nodup := by
      rw [hmap]
      exact hkeys
    have hsorted' : List.Sorted (fun x y => x ≤ y) ((m ++ (k, vb) :: m').map Prod.fst) := by
      rw [hmap]
      exact hsorted
    rw [kwargParts_of_sorted_nodup hkeys hsorted,
        kwargParts_of_sorted_nodup hkeys' hsorted']
    have e1 : [keyPfx, fn] ++ positionalParts [] ++ (m ++ (k, va) :: m').filterMap kwargRender =
        (keyPfx :: fn :: m.filterMap kwargRender) ++
          (k ++ "=" ++ serialize_value va) :: m'.filterMap kwargRender := by
      simp [positionalParts, startIdx, List.filterMap_append, List.filterMap_cons,
            kwargRender, hva, List.append_assoc]
    have e2 : [keyPfx, fn] ++ positionalParts [] ++ (m ++ (k, vb) :: m').filterMap kwargRender =
        (keyPfx :: fn :: m.filterMap kwargRender) ++
          (k ++ "=" ++ serialize_value vb) :: m'.filterMap kwargRender := by
      simp [positionalParts, startIdx, List.filterMap_append, List.filterMap_cons,
            kwargRender, hvb, List.append_assoc]
    rw [e1, e2]
    exact pyJoin_middle_ne _ _ (fun hEq => hvab (str_append_cancel_left hEq))

/-- Witness for C6's amended theorem: varying one included positional
argument (`1` vs `2` after a session argument) and one named argument
value, with all serialization hypotheses checked at these inputs. -/
theorem claim_C6_distinct_serializations_give_distinct_prehash_witness :
    (serialize_value (PyVal.pyint 1) ≠ serialize_value (PyVal.pyint 2) ∧
      serialize_value (PyVal.pyint 1) ≠ "" ∧ serialize_value (PyVal.pyint 2) ≠ "") ∧
    cache_key_data "f" "p" [PyVal.pysession 7, PyVal.pyint 1] [] ≠
      cache_key_data "f" "p" [PyVal.pysession 7, PyVal.pyint 2] [] ∧
    cache_key_data "f" "p" [] [("a", PyVal.pyint 1)] ≠
      cache_key_data "f" "p" [] [("a", PyVal.pyint 2)] := by
  have h := claim_C6_distinct_serializations_give_distinct_prehash "p" "f"
    (PyVal.pysession 7) [] [] (PyVal.pyint 1) (PyVal.pyint 2) []
    (by decide) (by decide) (by decide)
    [] [] "a" (PyVal.pyint 1) (PyVal.pyint 2)
    (by decide) (by simp) (by decide) (by decide) (by decide)
  exact ⟨⟨by decide, by decide, by decide⟩, h.1, h.2⟩

/-! ## Helper lemmas for the rate limiter -/

/-- A `set` on a connected store rewrites exactly the written key. -/
theorem set_snd_entries (st : CacheState) (k : String) (v : PyVal) (t : Nat)
    (h : st.connected = true) :
    ((st.set k v t).2).entries = setEntry st.entries k (jsonRoundTrip v) t := by
  simp [CacheState.set, h]

/-- Unfolded form of one `is_allowed` check: deny with the state untouched
when the counter has reached the limit, otherwise allow and store the
incremented counter under the window key with the window as TTL. -/
theorem is_allowed_eq (rl : RateLimiter) (st : CacheState) (identifier : String) (now : Nat) :
    rl.is_allowed st identifier now =
      (if toCount (st.get (rateKey identifier (now / rl.window_seconds * rl.window_seconds)))
          ≥ (rl.max_requests : Int)
       then (false, st)
       else (true, (st.set (rateKey identifier (now / rl.window_seconds * rl.window_seconds))
         (.pyint (toCount (st.get (rateKey identifier
           (now / rl.window_seconds * rl.window_seconds))) + 1)) rl.window_seconds).2)) := rfl

/-- Master induction for a sequence of same-window checks on a connected
store whose counter currently reads `c`: the i-th check allows exactly
when `c + i < max_requests`, the store stays connected, the counter never
decreases, and no key is ever removed. -/
theorem runChecks_master (rl : RateLimiter) (identifier : String) (ws : Nat) :
    ∀ (times : List Nat) (st : CacheState) (c : Int),
      st.connected = true →
      (∀ t ∈ times, t / rl.window_seconds * rl.window_seconds = ws) →
      toCount (st.get (rateKey identifier ws)) = c →
      (runChecks rl identifier st times).1 =
        (List.range times.length).map
          (fun (i : Nat) => decide (c + (i : Int) < (rl.max_requests : Int))) ∧
      ((runChecks rl identifier st times).2).connected = true ∧
      toCount (((runChecks rl identifier st times).2).get (rateKey identifier ws)) ≥ c ∧
      (∀ k', (lookupKey st.entries k').isSome →
        (lookupKey ((runChecks rl identifier st times).2).entries k').isSome) := by
  intro times
  induction times with
  | nil =>
    intro st c hconn htimes hc
    refine ⟨rfl, hconn, ?_, fun k' hk => hk⟩
    simp only [runChecks]
    rw [hc]
  | cons t ts ih =>
    intro st c hconn htimes hc
    have hwin : t / rl.window_seconds * rl.window_seconds = ws :=
      htimes t (List.mem_cons_self _ _)
    have htail : ∀ t' ∈ ts, t' / rl.window_seconds * rl.window_seconds = ws :=
      fun t' ht' => htimes t' (List.mem_cons_of_mem _ ht')
    by_cases hge : c ≥ (rl.max_requests : Int)
    · have hstep : rl.is_allowed st identifier t = (false, st) := by
        rw [is_allowed_eq, hwin, hc, if_pos hge]
      obtain ⟨ih1, ih2, ih3, ih4⟩ := ih st c hconn htail hc
      have hrun : runChecks rl identifier st (t :: ts) =
          (false :: (runChecks rl identifier st ts).1, (runChecks rl identifier st ts).2) := by
        simp [runChecks, hstep]
      refine ⟨?_, ?_, ?_, ?_⟩
      · simp only [hrun]
        rw [ih1, List.length_cons, List.range_succ_eq_map, List.map_cons, List.map_map]
        congr 1
        · rw [eq_comm, decide_eq_false_iff_not]
          push_cast
          omega
        · apply List.map_congr_left
          intro i _
          simp only [Function.comp]
          rw [decide_eq_decide]
          omega
      · simp only [hrun]
        exact ih2
      · simp only [hrun]
        exact ih3
      · simp only [hrun]
        exact ih4
    · have hstep : rl.is_allowed st identifier t =
          (true, (st.set (rateKey identifier ws) (.pyint (c + 1)) rl.window_seconds).2) := by
        rw [is_allowed_eq, hwin, hc, if_neg hge]
      have hconn' : ((st.set (rateKey identifier ws) (.pyint (c + 1))
          rl.window_seconds).2).connected = true := by
        rw [set_snd_connected]
        exact hconn
      have hc' : toCount (((st.set (rateKey identifier ws) (.pyint (c + 1))
          rl.window_seconds).2).get (rateKey identifier ws)) = c + 1 := by
        rw [get_set_self _ _ _ _ hconn]
        rfl
      obtain ⟨ih1, ih2, ih3, ih4⟩ := ih
        ((st.set (rateKey identifier ws) (.pyint (c + 1)) rl.window_seconds).2)
        (c + 1) hconn' htail hc'
      have hrun : runChecks rl identifier st (t :: ts) =
          (true :: (runChecks rl identifier
              ((st.set (rateKey identifier ws) (.pyint (c + 1)) rl.window_seconds).2) ts).1,
            (runChecks rl identifier
              ((st.set (rateKey identifier ws) (.pyint (c + 1)) rl.window_seconds).2) ts).2) := by
        simp [runChecks, hstep]
      refine ⟨?_, ?_, ?_, ?_⟩
      · simp only [hrun]
        rw [ih1, List.length_cons, List.range_succ_eq_map, List.map_cons, List.map_map]
        congr 1
        · rw [eq_comm, decide_eq_true_eq]
          push_cast
          omega
        · apply List.map_congr_left
          intro i _
          simp only [Function.comp]
          rw [decide_eq_decide]
          omega
      · simp only [hrun]
        exact ih2
      · simp only [hrun]
        exact le_trans (by omega) ih3
      · simp only [hrun]
        intro k' hk
        apply ih4
        rw [set_snd_entries _ _ _ _ hconn]
        exact isSome_lookup_setEntry _ _ _ _ _ hk

/-! ## Claim C3 -/

/-- C3: on a functioning (connected) store, for sequential checks all
falling in the same fixed window (every check time has the given
`window_start`), starting from a stored count that is absent or
non-integer (treated as 0), the i-th check allows exactly when
`i < max_requests`: the first `max_requests` checks allow and every later
check in the window denies. -/
theorem claim_C3_fixed_window_allow_then_deny (rl : RateLimiter) (st : CacheState)
    (identifier : String) (ws : Nat) (times : List Nat)
    (hconn : st.connected = true)
    (htimes : ∀ t ∈ times, t / rl.window_seconds * rl.window_seconds = ws)
    (habsent : pyIntValue (st.get (rateKey identifier ws)) = none) :
    (runChecks rl identifier st times).1 =
      (List.range times.length).map (fun i => decide (i < rl.max_requests)) := by
  have hc : toCount (st.get (rateKey identifier ws)) = 0 := by
    simp [toCount, habsent]
  rw [(runChecks_master rl identifier ws times st 0 hconn htimes hc).1]
  apply List.map_congr_left
  intro i _
  rw [decide_eq_decide]
  omega

/-- Witness for C3: `max_requests = 3`, `window_seconds = 60`, four
checks at seconds 0, 1, 59, 30 of the first window on an empty connected
store yield allow, allow, allow, deny. -/
theorem claim_C3_fixed_window_allow_then_deny_witness :
    ((∀ t ∈ [0, 1, 59, 30], t / (60 : Nat) * 60 = 0) ∧
      pyIntValue ((⟨true, []⟩ : CacheState).get (rateKey "ip" 0)) = none) ∧
    (runChecks ⟨3, 60⟩ "ip" ⟨true, []⟩ [0, 1, 59, 30]).1 = [true, true, true, false] := by
  refine ⟨⟨by decide, rfl⟩, ?_⟩
  rw [claim_C3_fixed_window_allow_then_deny ⟨3, 60⟩ ⟨true, []⟩ "ip" 0 [0, 1, 59, 30]
    rfl (by decide) rfl]
  decide

/-! ## Claim C8 -/

/-- C8: within one fixed window, an allowed check raises the stored
counter by exactly one and a denied check leaves the state untouched;
across any sequence of same-window checks the counter is monotonically
non-decreasing, and no store key is ever removed — the limiter never
explicitly deletes a counter, leaving expiry to the store TTL. -/
theorem claim_C8_counter_monotone_never_deleted (rl : RateLimiter) (st : CacheState)
    (identifier : String) (now ws : Nat) (times : List Nat)
    (hconn : st.connected = true)
    (hwin : now / rl.window_seconds * rl.window_seconds = ws)
    (htimes : ∀ t ∈ times, t / rl.window_seconds * rl.window_seconds = ws) :
    ((rl.is_allowed st identifier now).1 = true →
      toCount (((rl.is_allowed st identifier now).2).get (rateKey identifier ws)) =
        toCount (st.get (rateKey identifier ws)) + 1) ∧
    ((rl.is_allowed st identifier now).1 = false →
      (rl.is_allowed st identifier now).2 = st) ∧
    toCount (((runChecks rl identifier st times).2).get (rateKey identifier ws)) ≥
      toCount (st.get (rateKey identifier ws)) ∧
    (∀ k', (lookupKey st.entries k').isSome →
      (lookupKey ((runChecks rl identifier st times).2).entries k').isSome) := by
  have hmaster := runChecks_master rl identifier ws times st
    (toCount (st.get (rateKey identifier ws))) hconn htimes rfl
  refine ⟨?_, ?_, hmaster.2.2.1, hmaster.2.2.2⟩
  · intro hallow
    by_cases hge : toCount (st.get (rateKey identifier ws)) ≥ (rl.max_requests : Int)
    · exfalso
      have hdenied : rl.is_allowed st identifier now = (false, st) := by
        rw [is_allowed_eq, hwin, if_pos hge]
      rw [hdenied] at hallow
      simp at hallow
    · have hstep : rl.is_allowed st identifier now =
          (true, (st.set (rateKey identifier ws)
            (.pyint (toCount (st.get (rateKey identifier ws)) + 1)) rl.window_seconds).2) := by
        rw [is_allowed_eq, hwin, if_neg hge]
      rw [hstep]
      rw [get_set_self _ _ _ _ hconn]
      rfl
  · intro hdeny
    by_cases hge : toCount (st.get (rateKey identifier ws)) ≥ (rl.max_requests : Int)
    · have hdenied : rl.is_allowed st identifier now = (false, st) := by
        rw [is_allowed_eq, hwin, if_pos hge]
      rw [hdenied]
    · have hstep : rl.is_allowed st identifier now =
          (true, (st.set (rateKey identifier ws)
            (.pyint (toCount (st.get (rateKey identifier ws)) + 1)) rl.window_seconds).2) := by
        rw [is_allowed_eq, hwin, if_neg hge]
      rw [hstep] at hdeny
      simp at hdeny

/-- Witness for C8: one allowed check on an empty connected store (count
0 → 1) and a two-check same-window sequence. -/
theorem claim_C8_counter_monotone_never_deleted_witness :
    ((RateLimiter.is_allowed ⟨3, 60⟩ ⟨true, []⟩ "ip" 0).1 = true →
      toCount (((RateLimiter.is_allowed ⟨3, 60⟩ ⟨true, []⟩ "ip" 0).2).get (rateKey "ip" 0)) =
        toCount ((⟨true, []⟩ : CacheState).get (rateKey "ip" 0)) + 1) ∧
    ((RateLimiter.is_allowed ⟨3, 60⟩ ⟨true, []⟩ "ip" 0).1 = false →
      (RateLimiter.is_allowed ⟨3, 60⟩ ⟨true, []⟩ "ip" 0).2 = ⟨true, []⟩) ∧
    toCount (((runChecks ⟨3, 60⟩ "ip" ⟨true, []⟩ [0, 1]).2).get (rateKey "ip" 0)) ≥
      toCount ((⟨true, []⟩ : CacheState).get (rateKey "ip" 0)) ∧
    (∀ k', (lookupKey (⟨true, []⟩ : CacheState).entries k').isSome →
      (lookupKey ((runChecks ⟨3, 60⟩ "ip" ⟨true, []⟩ [0, 1]).2).entries k').isSome) :=
  claim_C8_counter_monotone_never_deleted ⟨3, 60⟩ ⟨true, []⟩ "ip" 0 0 [0, 1]
    rfl rfl (by decide)
